/-
  Verification of the College_Media real-time encrypted messaging subsystem.

  Shallow embedding of the messaging core:
  * `EncryptionService` — the server-side AES-256-GCM wrapper
    (src/backend/routes/messages.js, class EncryptionService);
  * `Message` and its mutators (src/backend/models/Message.js);
  * `messageController.sendMessage` (src/backend/controllers/messageController.js);
  * `MessageQueue.processQueue` / `deliverPendingMessages`
    (src/backend/workers/messageQueue.js);
  * client `handleNewMessage` (src/frontend/src/context/MessagingContext.jsx);
  * the socket disconnect grace-window handler (src/backend/routes/messages.js).

  Byte strings are modelled as `List Nat`; wall-clock instants as `Nat`
  timestamps supplied by the caller; the entropy source backing
  `crypto.randomBytes` as an explicit tape of IVs indexed by call counter.
-/
import Mathlib

/-! ## Cipher model

The repository calls the platform AEAD primitive (Node `crypto`
`createCipheriv`/`createDecipheriv` with `aes-256-gcm`; Web Crypto `AES-GCM`
on the client).  The primitive itself is a library external to the
repository, so it is modelled here as an ideal length-preserving
IV-dependent stream cipher with an authentication tag that binds the key,
the IV and the ciphertext, matching the AEAD interface the code relies on:
encryption is deterministic in (plaintext, key, IV); decryption verifies the
tag and inverts the keystream; any tag mismatch fails closed. -/

/-- Injective encoding of a byte string into one natural number
(used by the model to build keystreams and authentication tags). -/
def encodeL : List Nat → Nat
  | [] => 0
  | b :: rest => Nat.pair b (encodeL rest) + 1

theorem encodeL_injective : Function.Injective encodeL := by
  intro xs
  induction xs with
  | nil =>
    intro ys h
    cases ys with
    | nil => rfl
    | cons b rest => simp [encodeL] at h
  | cons a as ih =>
    intro ys h
    cases ys with
    | nil => simp [encodeL] at h
    | cons b rest =>
      simp only [encodeL, Nat.add_right_cancel_iff] at h
      have h2 := congrArg Nat.unpair h
      simp only [Nat.unpair_pair, Prod.mk.injEq] at h2
      rw [h2.1, ih h2.2]

/-- Model keystream: the byte fed to position `i` under `(key, iv)`.
Distinct `(key, iv)` pairs give distinct streams (ideal-cipher model). -/
def keystream (key iv : List Nat) (i : Nat) : Nat :=
  Nat.pair (encodeL key) (Nat.pair (encodeL iv) i)

/-- Model authentication tag over `(key, iv, ciphertext)`:  injective, so a
mutated ciphertext or tag never verifies (GCM's tamper detection). -/
def tagOf (key iv c : List Nat) : Nat :=
  Nat.pair (encodeL key) (Nat.pair (encodeL iv) (encodeL c))

/-- Keystream application from position `i` (model of the GCM CTR pass). -/
def ctrEnc (key iv : List Nat) : Nat → List Nat → List Nat
  | _, [] => []
  | i, b :: rest => (b + keystream key iv i) :: ctrEnc key iv (i + 1) rest

/-- Inverse keystream pass. -/
def ctrDec (key iv : List Nat) : Nat → List Nat → List Nat
  | _, [] => []
  | i, b :: rest => (b - keystream key iv i) :: ctrDec key iv (i + 1) rest

theorem ctrDec_ctrEnc (key iv p : List Nat) :
    ∀ i, ctrDec key iv i (ctrEnc key iv i p) = p := by
  induction p with
  | nil => intro i; rfl
  | cons b rest ih =>
    intro i
    simp [ctrEnc, ctrDec, ih (i + 1)]

theorem ctrEnc_length (key iv : List Nat) :
    ∀ i p, (ctrEnc key iv i p).length = List.length p := by
  intro i p
  induction p generalizing i with
  | nil => rfl
  | cons b rest ih => simp [ctrEnc, ih]

namespace EncryptionService

/-- Result record of `EncryptionService.encrypt`
(src/backend/routes/messages.js lines 515-537):
`{ encrypted, iv, authTag, algorithm }`.  `authTag` is an `Option` because a
payload handed to `decrypt` may lack it (`Buffer.from(undefined)` throws,
which the catch turns into the decryption error). -/
structure EncryptedPayload where
  encrypted : List Nat
  iv : List Nat
  authTag : Option Nat
  algorithm : String
  deriving Repr, DecidableEq

/-- `EncryptionService.encrypt(plaintext, key)`
(src/backend/routes/messages.js lines 515-537).  The freshly generated
random IV (`this.generateIV()` = `crypto.randomBytes(16)`) is passed
explicitly. -/
def encrypt (plaintext key iv : List Nat) : EncryptedPayload :=
  let c := ctrEnc key iv 0 plaintext
  { encrypted := c
    iv := iv
    authTag := some (tagOf key iv c)
    algorithm := "aes-256-gcm" }

/-- `EncryptionService.decrypt(encryptedData, key)`
(src/backend/routes/messages.js lines 542-559).  Any failure of the
underlying primitive (missing auth tag, tag mismatch) is caught and
rethrown as `Error('Decryption failed')`; success returns the plaintext. -/
def decrypt (d : EncryptedPayload) (key : List Nat) : Except String (List Nat) :=
  match d.authTag with
  | none => .error "Decryption failed"
  | some t =>
    if t = tagOf key d.iv d.encrypted then
      .ok (ctrDec key d.iv 0 d.encrypted)
    else
      .error "Decryption failed"

/-- The entropy tape model of `crypto.randomBytes` inside `generateIV`:
`tape n` is the IV drawn by the `n`-th call to `encrypt`.  Sequential calls
thread the counter. -/
def encryptCall (tape : Nat → List Nat) (n : Nat) (plaintext key : List Nat) :
    EncryptedPayload :=
  encrypt plaintext key (tape n)

end EncryptionService

/-- **C1.** Round-trip: decrypting `encrypt(P, K)` with the same key `K`
returns exactly `P`; and decryption fails closed with the decryption error —
never another string — when the ciphertext is mutated, when the auth tag is
mutated, or when the payload is malformed (auth tag absent). -/
theorem encrypt_decrypt_roundtrip_and_fail_closed
    (p key iv c' : List Nat) (t' : Nat)
    (hc : c' ≠ (EncryptionService.encrypt p key iv).encrypted)
    (ht : some t' ≠ (EncryptionService.encrypt p key iv).authTag) :
    EncryptionService.decrypt (EncryptionService.encrypt p key iv) key
        = .ok p
    ∧ EncryptionService.decrypt
        { EncryptionService.encrypt p key iv with encrypted := c' } key
        = .error "Decryption failed"
    ∧ EncryptionService.decrypt
        { EncryptionService.encrypt p key iv with authTag := some t' } key
        = .error "Decryption failed"
    ∧ EncryptionService.decrypt
        { EncryptionService.encrypt p key iv with authTag := none } key
        = .error "Decryption failed" := by
  refine ⟨?_, ?_, ?_, ?_⟩
  · simp [EncryptionService.encrypt, EncryptionService.decrypt,
      ctrDec_ctrEnc key iv p 0]
  · have htag : tagOf key iv (ctrEnc key iv 0 p) ≠ tagOf key iv c' := by
      intro h
      apply hc
      have h2 := congrArg Nat.unpair h.symm
      simp only [tagOf, Nat.unpair_pair, Prod.mk.injEq] at h2
      have h3 := congrArg Nat.unpair h2.2
      simp only [Nat.unpair_pair, Prod.mk.injEq] at h3
      exact encodeL_injective h3.2
    simp [EncryptionService.encrypt, EncryptionService.decrypt, htag]
  · have ht' : t' ≠ tagOf key iv (ctrEnc key iv 0 p) := by
      intro h
      exact ht (by simp [EncryptionService.encrypt, h])
    simp [EncryptionService.encrypt, EncryptionService.decrypt, ht']
  · simp [EncryptionService.encrypt, EncryptionService.decrypt]

/-- Closed witness for C1 at concrete inputs. -/
theorem encrypt_decrypt_roundtrip_and_fail_closed_spot :
    EncryptionService.decrypt
        (EncryptionService.encrypt [7, 2] [1] [3, 4]) [1] = .ok [7, 2] := by
  have h := encrypt_decrypt_roundtrip_and_fail_closed [7, 2] [1] [3, 4] [] 0
    (by decide) (by decide)
  exact h.1

/-- **C2 (counterexample).** As stated, the claim fails on the empty
plaintext: two `encrypt` calls with fresh (distinct) IVs return different
IVs but *equal* ciphertexts — AES-GCM on the empty string produces the
empty ciphertext on every call, so `encrypted` is `''` both times. -/
theorem encrypt_empty_plaintext_same_ciphertext :
    (EncryptionService.encryptCall (fun n => [n]) 0 [] [5]).iv
        ≠ (EncryptionService.encryptCall (fun n => [n]) 1 [] [5]).iv
    ∧ (EncryptionService.encryptCall (fun n => [n]) 0 [] [5]).encrypted
        = (EncryptionService.encryptCall (fun n => [n]) 1 [] [5]).encrypted := by
  constructor
  · decide
  · rfl

/-- **C2 (amended).** Each `encrypt` call returns a record carrying the
ciphertext, the IV and an auth tag (`algorithm` = `aes-256-gcm`); the IV
field is exactly the fresh random draw of that call, so two calls whose
entropy draws differ return different IVs; and whenever the plaintext is
nonempty the two ciphertexts differ as well. -/
theorem encrypt_fresh_iv_distinct_ciphertexts
    (tape : Nat → List Nat) (n m : Nat) (p key : List Nat)
    (hfresh : tape n ≠ tape m) :
    (EncryptionService.encryptCall tape n p key).iv = tape n
    ∧ (EncryptionService.encryptCall tape n p key).authTag.isSome = true
    ∧ (EncryptionService.encryptCall tape n p key).algorithm = "aes-256-gcm"
    ∧ (EncryptionService.encryptCall tape n p key).iv
        ≠ (EncryptionService.encryptCall tape m p key).iv
    ∧ (p ≠ [] →
        (EncryptionService.encryptCall tape n p key).encrypted
          ≠ (EncryptionService.encryptCall tape m p key).encrypted) := by
  refine ⟨rfl, rfl, rfl, ?_, ?_⟩
  · simpa [EncryptionService.encryptCall, EncryptionService.encrypt] using hfresh
  · intro hp
    cases p with
    | nil => exact absurd rfl hp
    | cons b rest =>
      intro henc
      have hhead : b + keystream key (tape n) 0 = b + keystream key (tape m) 0 := by
        have h := congrArg (fun l => l.headD 0) henc
        simpa [EncryptionService.encryptCall, EncryptionService.encrypt,
          ctrEnc] using h
      have h1 : keystream key (tape n) 0 = keystream key (tape m) 0 := by
        omega
      have h2 := congrArg Nat.unpair h1
      simp only [keystream, Nat.unpair_pair, Prod.mk.injEq] at h2
      have h3 := congrArg Nat.unpair h2.2
      simp only [Nat.unpair_pair, Prod.mk.injEq] at h3
      exact hfresh (encodeL_injective h3.1)

/-- Closed witness for the amended C2 at concrete inputs. -/
theorem encrypt_fresh_iv_distinct_ciphertexts_spot :
    (EncryptionService.encryptCall (fun n => [n]) 0 [9] [5]).iv
      ≠ (EncryptionService.encryptCall (fun n => [n]) 1 [9] [5]).iv := by
  have h := encrypt_fresh_iv_distinct_ciphertexts (fun n => [n]) 0 1 [9] [5]
    (by decide)
  exact h.2.2.2.1

/-! ## Message store model (src/backend/models/Message.js) -/

/-- `status` enum of the message schema
(src/backend/models/Message.js lines 83-88). -/
inductive MsgStatus
  | sending | sent | delivered | read | failed
  deriving Repr, DecidableEq

/-- One entry of `deliveredTo` / `readBy`: `{ userId, deliveredAt/readAt }`
(src/backend/models/Message.js lines 90-106). -/
structure Receipt where
  userId : Nat
  time : Nat
  deriving Repr, DecidableEq

/-- Stored content record `{ encrypted, iv, algorithm, authTag }`
(src/backend/models/Message.js lines 35-53). -/
structure StoredContent where
  encrypted : String
  iv : String
  algorithm : String
  authTag : Option String
  deriving Repr, DecidableEq

/-- A `Message` document (src/backend/models/Message.js).  Fields not
touched by any claim (attachments, edit history, metadata, tenant) are
omitted. -/
structure Message where
  id : Nat
  conversationId : Nat
  sender : Nat
  recipient : Option Nat
  content : StoredContent
  type : String
  replyTo : Option Nat
  status : MsgStatus
  deliveredTo : List Receipt
  readBy : List Receipt
  sentAt : Nat
  deleted : Bool
  deletedFor : List Nat
  expiresAt : Option Nat
  deriving Repr, DecidableEq

/-- `messageSchema.methods.markDelivered(userId)`
(src/backend/models/Message.js lines 161-179): append a delivery receipt
only if `userId` has none yet, and promote `sent -> delivered` only in
that case; `now` stands for `new Date()`. -/
def markDelivered (m : Message) (u : Nat) (now : Nat) : Message :=
  if m.deliveredTo.any (fun r => r.userId = u) then m
  else
    { m with
        deliveredTo := m.deliveredTo ++ [⟨u, now⟩]
        status := if m.status = .sent then .delivered else m.status }

/-- `messageSchema.methods.markRead(userId)`
(src/backend/models/Message.js lines 182-197): append a read receipt only
if `userId` has none yet, and in that case set `status = 'read'`
unconditionally. -/
def markRead (m : Message) (u : Nat) (now : Nat) : Message :=
  if m.readBy.any (fun r => r.userId = u) then m
  else
    { m with
        readBy := m.readBy ++ [⟨u, now⟩]
        status := .read }

/-- The per-document update performed by
`messageSchema.statics.markAllRead(userId, conversationId)`
(src/backend/models/Message.js lines 261-279): `updateMany` matches
documents of the conversation addressed to `userId` whose status is `sent`
or `delivered`, sets `status = 'read'` and `$push`-es a read receipt. -/
def markAllReadDoc (u cid now : Nat) (m : Message) : Message :=
  if m.conversationId = cid ∧ m.recipient = some u
      ∧ (m.status = .sent ∨ m.status = .delivered) then
    { m with status := .read, readBy := m.readBy ++ [⟨u, now⟩] }
  else m

/-- `markAllRead` over the whole store. -/
def markAllRead (store : List Message) (u cid now : Nat) : List Message :=
  store.map (markAllReadDoc u cid now)

/-- Rank of a status along the forward chain
`sending -> sent -> delivered -> read`. -/
def statusRank : MsgStatus → Nat
  | .sending => 0
  | .sent => 1
  | .delivered => 2
  | .read => 3
  | .failed => 0

/-- **C4.** Status monotonicity: once a message's status is `read`, neither
`markDelivered` nor `markRead` nor the `markAllRead` bulk update moves it
back to `sent` or `delivered` (a `read` document is untouched by
`markAllRead`'s filter); and on the chain
`sending -> sent -> delivered -> read` every one of the three operations
only moves the status forward. -/
theorem status_monotone_no_regression
    (m : Message) (u cid now : Nat) (hread : m.status = .read) :
    (markDelivered m u now).status = .read
    ∧ (markRead m u now).status = .read
    ∧ markAllReadDoc u cid now m = m
    ∧ (∀ m' : Message, m'.status ≠ .failed →
        statusRank m'.status ≤ statusRank (markDelivered m' u now).status
        ∧ statusRank m'.status ≤ statusRank (markRead m' u now).status
        ∧ statusRank m'.status ≤ statusRank (markAllReadDoc u cid now m').status) := by
  refine ⟨?_, ?_, ?_, ?_⟩
  · unfold markDelivered
    split
    · exact hread
    · simp [hread]
  · unfold markRead
    split
    · exact hread
    · rfl
  · unfold markAllReadDoc
    rw [if_neg]
    simp [hread]
  · intro m' hf
    refine ⟨?_, ?_, ?_⟩
    · unfold markDelivered
      split
      · exact le_refl _
      · cases h : m'.status <;> simp [h, statusRank]
    · unfold markRead
      split
      · exact le_refl _
      · cases h : m'.status <;> simp [h, statusRank]
    · unfold markAllReadDoc
      split
      · rename_i hcond
        rcases hcond.2.2 with h | h <;> simp [h, statusRank]
      · exact le_refl _

/-- Closed witness for C4 at a concrete `read` message. -/
theorem status_monotone_no_regression_spot :
    (markDelivered
      { id := 1, conversationId := 2, sender := 3, recipient := some 4
        content := ⟨"c", "i", "aes-256-gcm", some "t"⟩, type := "text"
        replyTo := none, status := .read, deliveredTo := []
        readBy := [⟨4, 5⟩], sentAt := 5, deleted := false, deletedFor := []
        expiresAt := none } 4 9).status = .read := by
  exact (status_monotone_no_regression _ 4 2 9 rfl).1

/-- Number of read receipts user `u` holds in a receipt list. -/
def readCount (u : Nat) (l : List Receipt) : Nat :=
  (l.filter (fun r => r.userId = u)).length

/-- **C5.** `markRead` is idempotent: the second call is the identity
(`markRead (markRead m u) u = markRead m u`, for every message), and when
`u` starts with no read record the two calls leave exactly one read record
for `u` and status `read`. -/
theorem markRead_idempotent
    (m : Message) (u t1 t2 : Nat) (hfresh : readCount u m.readBy = 0) :
    markRead (markRead m u t1) u t2 = markRead m u t1
    ∧ readCount u (markRead (markRead m u t1) u t2).readBy = 1
    ∧ (markRead (markRead m u t1) u t2).status = .read := by
  have hnone : m.readBy.any (fun r => r.userId = u) = false := by
    rw [List.any_eq_false]
    intro r hr
    intro hru
    have : r ∈ m.readBy.filter (fun r => r.userId = u) :=
      List.mem_filter.mpr ⟨hr, hru⟩
    unfold readCount at hfresh
    rw [List.length_eq_zero] at hfresh
    simp [hfresh] at this
  have hstep : markRead m u t1
      = { m with readBy := m.readBy ++ [⟨u, t1⟩], status := .read } := by
    unfold markRead
    rw [if_neg]
    simp [hnone]
  have hsecond : markRead (markRead m u t1) u t2 = markRead m u t1 := by
    rw [hstep]
    unfold markRead
    rw [if_pos]
    simp
  refine ⟨hsecond, ?_, ?_⟩
  · rw [hsecond, hstep]
    unfold readCount at hfresh ⊢
    simp [List.filter_append, hfresh]
  · rw [hsecond, hstep]

/-- Closed witness for C5 at a concrete message. -/
theorem markRead_idempotent_spot :
    readCount 4 (markRead (markRead
      { id := 1, conversationId := 2, sender := 3, recipient := some 4
        content := ⟨"c", "i", "aes-256-gcm", some "t"⟩, type := "text"
        replyTo := none, status := .sent, deliveredTo := []
        readBy := [], sentAt := 5, deleted := false, deletedFor := []
        expiresAt := none } 4 6) 4 7).readBy = 1 :=
  (markRead_idempotent
      { id := 1, conversationId := 2, sender := 3, recipient := some 4
        content := ⟨"c", "i", "aes-256-gcm", some "t"⟩, type := "text"
        replyTo := none, status := .sent, deliveredTo := []
        readBy := [], sentAt := 5, deleted := false, deletedFor := []
        expiresAt := none } 4 6 7 rfl).2.1

/-! ## Send path (src/backend/controllers/messageController.js) -/

/-- JS truthiness of an optional string field (`!content.encrypted` is true
for a missing field and for the empty string). -/
def strTruthy : Option String → Bool
  | none => false
  | some s => s ≠ ""

/-- A `Conversation` document.
Modelled from the spec: the `Conversation` model file is not under `src/`
(only its callers are); §3 gives it an id, exactly two participants, and a
denormalized last-message pointer. -/
structure Conversation where
  id : Nat
  participants : List Nat
  lastMessageId : Option Nat
  deriving Repr, DecidableEq

/-- One delivery-queue entry
(src/backend/workers/messageQueue.js lines 56-63). -/
structure QEntry where
  messageId : Nat
  conversationId : Nat
  sender : Nat
  sentAt : Nat
  retries : Nat
  queuedAt : Nat
  deriving Repr, DecidableEq

/-- Socket events the modelled server emits. -/
inductive NetEvent
  | convNewMessage (conversationId msgId : Nat)
  | userNewMessage (userId msgId : Nat)
  | pendingBatch (userId : Nat) (msgIds : List Nat)
  | deliveredNote (senderId userId : Nat) (msgIds : List Nat)
  deriving Repr, DecidableEq

/-- Server-side state touched by the send path: the durable message and
conversation stores, the in-memory offline queue, the emitted socket
events, and fresh-id counters for created documents. -/
structure ServerState where
  messages : List Message
  conversations : List Conversation
  queue : List (Nat × List QEntry)
  events : List NetEvent
  nextMsgId : Nat
  nextConvId : Nat
  deriving Repr, DecidableEq

/-- Append an entry to a recipient's queue list
(`MessageQueue.queueMessage`, src/backend/workers/messageQueue.js
lines 49-66). -/
def queuePush (q : List (Nat × List QEntry)) (uid : Nat) (e : QEntry) :
    List (Nat × List QEntry) :=
  if q.any (fun p => p.1 = uid) then
    q.map (fun p => if p.1 = uid then (p.1, p.2 ++ [e]) else p)
  else
    q ++ [(uid, [e])]

/-- `MessageQueue.queueMessage(message)`: queue for `message.recipient`. -/
def queueMessage (q : List (Nat × List QEntry)) (m : Message) (now : Nat) :
    List (Nat × List QEntry) :=
  match m.recipient with
  | none => q
  | some r =>
    queuePush q r
      { messageId := m.id, conversationId := m.conversationId
        sender := m.sender, sentAt := m.sentAt, retries := 0
        queuedAt := now }

/-- `Conversation.findOrCreate(senderId, recipientId)`.
Modelled from the spec: the `Conversation` model file is not under `src/`;
§3 says a conversation is looked up by the unordered pair of participants
and created lazily on first message. -/
def findOrCreate (sender recipient : Nat) (st : ServerState) :
    Conversation × ServerState :=
  match st.conversations.find?
      (fun c => (sender ∈ c.participants ∧ recipient ∈ c.participants : Prop)) with
  | some c => (c, st)
  | none =>
    let c : Conversation :=
      { id := st.nextConvId, participants := [sender, recipient]
        lastMessageId := none }
    (c, { st with conversations := st.conversations ++ [c]
                  nextConvId := st.nextConvId + 1 })

/-- `conversation.updateLastMessage(message)`.
Modelled from the spec: §3's denormalized pointer to the last message. -/
def updateLastMessage (st : ServerState) (cid msgId : Nat) : ServerState :=
  { st with
      conversations := st.conversations.map
        (fun c => if c.id = cid then { c with lastMessageId := some msgId } else c) }

/-- Body of `POST /api/messages` as received by
`messageController.sendMessage` (src/backend/controllers/messageController.js
lines 20-116); `sender` is `req.user._id`. -/
structure SendRequest where
  sender : Nat
  conversationId : Option Nat
  recipientId : Option Nat
  contentEncrypted : Option String
  contentIv : Option String
  contentAuthTag : Option String
  contentAlgorithm : Option String
  type : String
  replyTo : Option Nat
  expiresIn : Option Nat
  deriving Repr, DecidableEq

/-- HTTP-level result of the send call. -/
inductive SendResult
  | ok (msgId : Nat)
  | err (code : Nat) (msg : String)
  deriving Repr, DecidableEq

/-- Shared tail of `sendMessage` once the conversation is resolved:
create the message with `status: 'sent'`, update the conversation's last
message, then push over the socket if the recipient is online, else queue
for offline delivery. -/
def sendMessageCreate (req : SendRequest) (conv : Conversation)
    (st : ServerState) (now : Nat) (online : Nat → Bool) :
    SendResult × ServerState :=
  let recipient :=
    match req.recipientId with
    | some r => some r
    | none => conv.participants.find? (fun p => p ≠ req.sender)
  let m : Message :=
    { id := st.nextMsgId
      conversationId := conv.id
      sender := req.sender
      recipient := recipient
      content :=
        { encrypted := (req.contentEncrypted).getD ""
          iv := (req.contentIv).getD ""
          authTag := req.contentAuthTag
          algorithm := (req.contentAlgorithm).getD "aes-256-gcm" }
      type := req.type
      replyTo := req.replyTo
      status := .sent
      deliveredTo := []
      readBy := []
      sentAt := now
      deleted := false
      deletedFor := []
      expiresAt := req.expiresIn.map (fun d => now + d) }
  let st1 := { st with messages := st.messages ++ [m]
                       nextMsgId := st.nextMsgId + 1 }
  let st2 := updateLastMessage st1 conv.id m.id
  let st3 :=
    match recipient with
    | none => st2
    | some r =>
      if online r then
        { st2 with events := st2.events ++ [.convNewMessage conv.id m.id] }
      else
        { st2 with queue := queueMessage st2.queue m now }
  (.ok m.id, st3)

/-- `messageController.sendMessage` (src/backend/controllers/messageController.js
lines 20-116): validate that the content carries ciphertext and IV before
anything else, then resolve or lazily create the conversation, create the
message, and deliver or queue. -/
def sendMessage (req : SendRequest) (st : ServerState) (now : Nat)
    (online : Nat → Bool) : SendResult × ServerState :=
  if ¬(strTruthy req.contentEncrypted ∧ strTruthy req.contentIv) then
    (.err 400 "Message must be encrypted", st)
  else
    match req.conversationId with
    | some cid =>
      match st.conversations.find? (fun c => c.id = cid) with
      | none => (.err 403 "Cannot access this conversation", st)
      | some conv =>
        if req.sender ∈ conv.participants then
          sendMessageCreate req conv st now online
        else
          (.err 403 "Cannot access this conversation", st)
    | none =>
      match req.recipientId with
      | some rid =>
        let (conv, st') := findOrCreate req.sender rid st
        sendMessageCreate req conv st' now online
      | none => (.err 400 "conversationId or recipientId required", st)

/-- **C3.** A send request whose content lacks the `encrypted` field or
lacks the `iv` field is rejected with the 400 validation error, and the
whole server state — messages, conversations, queue, events — is exactly
the state before the call: nothing is persisted. -/
theorem sendMessage_missing_field_rejected
    (req : SendRequest) (st : ServerState) (now : Nat) (online : Nat → Bool)
    (h : req.contentEncrypted = none ∨ req.contentIv = none) :
    sendMessage req st now online = (.err 400 "Message must be encrypted", st) := by
  unfold sendMessage
  rw [if_pos]
  rcases h with h | h <;> simp [h, strTruthy]

/-- Closed witness for C3 at a concrete request lacking `iv`. -/
theorem sendMessage_missing_field_rejected_spot :
    sendMessage
      { sender := 1, conversationId := none, recipientId := some 2
        contentEncrypted := some "abc", contentIv := none
        contentAuthTag := none, contentAlgorithm := none, type := "text"
        replyTo := none, expiresIn := none }
      { messages := [], conversations := [], queue := [], events := []
        nextMsgId := 0, nextConvId := 0 } 5 (fun _ => true)
    = (.err 400 "Message must be encrypted",
       { messages := [], conversations := [], queue := [], events := []
         nextMsgId := 0, nextConvId := 0 }) :=
  sendMessage_missing_field_rejected _ _ 5 _ (Or.inr rfl)

/-! ## Offline queue sweep (src/backend/workers/messageQueue.js) -/

/-- `this.maxRetries` (src/backend/workers/messageQueue.js line 16). -/
def maxRetries : Nat := 10

/-- `Message.findById` against the durable store. -/
def findMsg (store : List Message) (i : Nat) : Option Message :=
  store.find? (fun m => m.id = i)

/-- Apply `f` to every stored document matching `sel` (the shape of a
Mongo update). -/
def updateWhere (store : List Message) (sel : Message → Bool)
    (f : Message → Message) : List Message :=
  store.map (fun m => if sel m then f m else m)

/-- Persist a mutation of the document with id `i` (a `document.save()`). -/
def updateMsg (store : List Message) (i : Nat) (f : Message → Message) :
    List Message :=
  updateWhere store (fun m => m.id = i) f

/-- Result of one recipient's pass of `processQueue`: the store after the
`markDelivered` saves, the ids collected in `delivered`, the socket events
pushed, and the entries with their updated retry counters (before the
removal filter). -/
structure SweepRes where
  store : List Message
  delivered : List Nat
  events : List NetEvent
  entries : List QEntry
  deriving Repr, DecidableEq

/-- The `for (const queuedMessage of messages)` loop of
`MessageQueue.processQueue` (src/backend/workers/messageQueue.js lines
86-116) for one online recipient `uid`: refetch each queued message; if it
exists and is still `sent`, push `message:new`, mark it delivered (saving
through the store) and record it in `delivered`; a thrown delivery error
(`fetchFails`, modelled at the refetch) increments the entry's retry
counter instead. -/
def runEntries (uid now : Nat) (fetchFails : QEntry → Bool) :
    List Message → List QEntry → SweepRes
  | store, [] => ⟨store, [], [], []⟩
  | store, e :: rest =>
    if fetchFails e then
      let r := runEntries uid now fetchFails store rest
      { r with entries := { e with retries := e.retries + 1 } :: r.entries }
    else
      match findMsg store e.messageId with
      | some m =>
        if m.status = .sent then
          let store1 := updateMsg store e.messageId
            (fun m0 => markDelivered m0 uid now)
          let r := runEntries uid now fetchFails store1 rest
          { store := r.store
            delivered := e.messageId :: r.delivered
            events := NetEvent.userNewMessage uid e.messageId :: r.events
            entries := e :: r.entries }
        else
          let r := runEntries uid now fetchFails store rest
          { r with entries := e :: r.entries }
      | none =>
        let r := runEntries uid now fetchFails store rest
        { r with entries := e :: r.entries }

/-- One online recipient's full sweep step: the per-entry loop followed by
`messages.filter(m => !delivered.includes(m.messageId) && m.retries <
this.maxRetries)` (src/backend/workers/messageQueue.js lines 118-121);
`entries` of the result is the remaining queue for this recipient. -/
def sweepUser (store : List Message) (uid now : Nat)
    (fetchFails : QEntry → Bool) (entries : List QEntry) : SweepRes :=
  let r := runEntries uid now fetchFails store entries
  { r with
      entries := r.entries.filter
        (fun e => !(r.delivered.contains e.messageId)
          && decide (e.retries < maxRetries)) }

/-- `MessageQueue.processQueue` over the whole queue map
(src/backend/workers/messageQueue.js lines 71-130): recipients with empty
entry lists are removed, offline recipients are left untouched, online
recipients are swept with `sweepUser` (their slot is dropped when nothing
remains). -/
def processQueue (online : Nat → Bool) (fetchFails : QEntry → Bool)
    (now : Nat) :
    List Message → List (Nat × List QEntry) →
      List Message × List NetEvent × List (Nat × List QEntry)
  | store, [] => (store, [], [])
  | store, (uid, entries) :: restQ =>
    if entries = [] then processQueue online fetchFails now store restQ
    else if online uid then
      let r := sweepUser store uid now fetchFails entries
      let rest := processQueue online fetchFails now r.store restQ
      (rest.1, r.events ++ rest.2.1,
        (if r.entries = [] then [] else [(uid, r.entries)]) ++ rest.2.2)
    else
      let rest := processQueue online fetchFails now store restQ
      (rest.1, rest.2.1, (uid, entries) :: rest.2.2)

theorem markDelivered_id (m : Message) (u t : Nat) :
    (markDelivered m u t).id = m.id := by
  unfold markDelivered
  split <;> rfl

theorem findMsg_cons (m : Message) (s : List Message) (j : Nat) :
    findMsg (m :: s) j = if m.id = j then some m else findMsg s j := by
  unfold findMsg
  by_cases h : m.id = j
  · rw [if_pos h, List.find?_cons_of_pos]
    simpa
  · rw [if_neg h, List.find?_cons_of_neg]
    simpa

theorem findMsg_id (s : List Message) (j : Nat) (m : Message)
    (h : findMsg s j = some m) : m.id = j := by
  have := List.find?_some h
  simpa using this

theorem findMsg_updateWhere (s : List Message) (sel : Message → Bool)
    (f : Message → Message) (hf : ∀ m, (f m).id = m.id) (j : Nat) :
    findMsg (updateWhere s sel f) j
      = (findMsg s j).map (fun m => if sel m then f m else m) := by
  induction s with
  | nil => rfl
  | cons m rest ih =>
    have hcons : updateWhere (m :: rest) sel f
        = (if sel m then f m else m) :: updateWhere rest sel f := rfl
    rw [hcons, findMsg_cons, findMsg_cons]
    have hid : (if sel m then f m else m).id = m.id := by
      split <;> simp [hf]
    by_cases hmj : m.id = j
    · rw [if_pos (hid.trans hmj), if_pos hmj]
      rfl
    · rw [if_neg (fun h => hmj (hid.symm.trans h)), if_neg hmj]
      exact ih

theorem findMsg_updateMsg_ne (s : List Message) (i j : Nat)
    (f : Message → Message) (hf : ∀ m, (f m).id = m.id) (hne : j ≠ i) :
    findMsg (updateMsg s i f) j = findMsg s j := by
  unfold updateMsg
  rw [findMsg_updateWhere s _ f hf j]
  cases h : findMsg s j with
  | none => rfl
  | some m =>
    have hm := findMsg_id s j m h
    have hmi : ¬(m.id = i) := by rw [hm]; exact hne
    simp [hmi]

theorem findMsg_updateMsg_eq (s : List Message) (i : Nat)
    (f : Message → Message) (hf : ∀ m, (f m).id = m.id) :
    findMsg (updateMsg s i f) i = (findMsg s i).map f := by
  unfold updateMsg
  rw [findMsg_updateWhere s _ f hf i]
  cases h : findMsg s i with
  | none => rfl
  | some m =>
    have hm := findMsg_id s i m h
    simp [hm]

theorem runEntries_nil (uid now : Nat) (ff : QEntry → Bool)
    (store : List Message) :
    runEntries uid now ff store [] = ⟨store, [], [], []⟩ := rfl

theorem runEntries_cons_fail (uid now : Nat) (ff : QEntry → Bool)
    (store : List Message) (e : QEntry) (rest : List QEntry)
    (hf : ff e = true) :
    runEntries uid now ff store (e :: rest)
      = { runEntries uid now ff store rest with
            entries := { e with retries := e.retries + 1 }
              :: (runEntries uid now ff store rest).entries } := by
  simp [runEntries, hf]

theorem runEntries_cons_deliver (uid now : Nat) (ff : QEntry → Bool)
    (store : List Message) (e : QEntry) (rest : List QEntry) (m : Message)
    (hf : ff e = false) (hm : findMsg store e.messageId = some m)
    (hs : m.status = .sent) :
    runEntries uid now ff store (e :: rest)
      = { store := (runEntries uid now ff
            (updateMsg store e.messageId (fun m0 => markDelivered m0 uid now))
            rest).store
          delivered := e.messageId :: (runEntries uid now ff
            (updateMsg store e.messageId (fun m0 => markDelivered m0 uid now))
            rest).delivered
          events := NetEvent.userNewMessage uid e.messageId
            :: (runEntries uid now ff
            (updateMsg store e.messageId (fun m0 => markDelivered m0 uid now))
            rest).events
          entries := e :: (runEntries uid now ff
            (updateMsg store e.messageId (fun m0 => markDelivered m0 uid now))
            rest).entries } := by
  simp [runEntries, hf, hm, hs]

theorem runEntries_cons_absent (uid now : Nat) (ff : QEntry → Bool)
    (store : List Message) (e : QEntry) (rest : List QEntry)
    (hf : ff e = false) (hm : findMsg store e.messageId = none) :
    runEntries uid now ff store (e :: rest)
      = { runEntries uid now ff store rest with
            entries := e :: (runEntries uid now ff store rest).entries } := by
  simp [runEntries, hf, hm]

theorem runEntries_cons_notsent (uid now : Nat) (ff : QEntry → Bool)
    (store : List Message) (e : QEntry) (rest : List QEntry) (m : Message)
    (hf : ff e = false) (hm : findMsg store e.messageId = some m)
    (hs : m.status ≠ .sent) :
    runEntries uid now ff store (e :: rest)
      = { runEntries uid now ff store rest with
            entries := e :: (runEntries uid now ff store rest).entries } := by
  simp [runEntries, hf, hm, hs]

theorem runEntries_entries_eq (uid now : Nat) (ff : QEntry → Bool) :
    ∀ (es : List QEntry) (store : List Message),
      (runEntries uid now ff store es).entries
        = es.map (fun e =>
            if ff e then { e with retries := e.retries + 1 } else e) := by
  intro es
  induction es with
  | nil => intro store; rfl
  | cons e rest ih =>
    intro store
    by_cases hf : ff e
    · rw [runEntries_cons_fail uid now ff store e rest hf]
      simp [hf, ih]
    · cases hm : findMsg store e.messageId with
      | some m =>
        by_cases hs : m.status = .sent
        · rw [runEntries_cons_deliver uid now ff store e rest m
            (by simpa using hf) hm hs]
          simp [hf, ih]
        · rw [runEntries_cons_notsent uid now ff store e rest m
            (by simpa using hf) hm hs]
          simp [hf, ih]
      | none =>
        rw [runEntries_cons_absent uid now ff store e rest
          (by simpa using hf) hm]
        simp [hf, ih]

theorem runEntries_events_eq (uid now : Nat) (ff : QEntry → Bool) :
    ∀ (es : List QEntry) (store : List Message),
      (runEntries uid now ff store es).events
        = (runEntries uid now ff store es).delivered.map
            (NetEvent.userNewMessage uid) := by
  intro es
  induction es with
  | nil => intro store; rfl
  | cons e rest ih =>
    intro store
    by_cases hf : ff e
    · rw [runEntries_cons_fail uid now ff store e rest hf]
      exact ih store
    · cases hm : findMsg store e.messageId with
      | some m =>
        by_cases hs : m.status = .sent
        · rw [runEntries_cons_deliver uid now ff store e rest m
            (by simpa using hf) hm hs]
          simp [ih]
        · rw [runEntries_cons_notsent uid now ff store e rest m
            (by simpa using hf) hm hs]
          exact ih store
      | none =>
        rw [runEntries_cons_absent uid now ff store e rest
          (by simpa using hf) hm]
        exact ih store

theorem runEntries_delivered_src (uid now : Nat) (ff : QEntry → Bool) :
    ∀ (es : List QEntry) (store : List Message),
      ∀ i ∈ (runEntries uid now ff store es).delivered,
        ∃ e ∈ es, e.messageId = i ∧ ff e = false := by
  intro es
  induction es with
  | nil => intro store i hi; simp [runEntries_nil] at hi
  | cons e rest ih =>
    intro store i hi
    by_cases hf : ff e
    · rw [runEntries_cons_fail uid now ff store e rest hf] at hi
      obtain ⟨e', he', h1, h2⟩ := ih store i hi
      exact ⟨e', List.mem_cons_of_mem e he', h1, h2⟩
    · cases hm : findMsg store e.messageId with
      | some m =>
        by_cases hs : m.status = .sent
        · rw [runEntries_cons_deliver uid now ff store e rest m
            (by simpa using hf) hm hs] at hi
          rcases List.mem_cons.mp hi with h | h
          · exact ⟨e, List.mem_cons_self e rest, h.symm, by simpa using hf⟩
          · obtain ⟨e', he', h1, h2⟩ := ih _ i h
            exact ⟨e', List.mem_cons_of_mem e he', h1, h2⟩
        · rw [runEntries_cons_notsent uid now ff store e rest m
            (by simpa using hf) hm hs] at hi
          obtain ⟨e', he', h1, h2⟩ := ih store i hi
          exact ⟨e', List.mem_cons_of_mem e he', h1, h2⟩
      | none =>
        rw [runEntries_cons_absent uid now ff store e rest
          (by simpa using hf) hm] at hi
        obtain ⟨e', he', h1, h2⟩ := ih store i hi
        exact ⟨e', List.mem_cons_of_mem e he', h1, h2⟩

theorem runEntries_store_untouched (uid now : Nat) (ff : QEntry → Bool) :
    ∀ (es : List QEntry) (store : List Message) (j : Nat),
      j ∉ (runEntries uid now ff store es).delivered →
        findMsg (runEntries uid now ff store es).store j = findMsg store j := by
  intro es
  induction es with
  | nil => intro store j _; rfl
  | cons e rest ih =>
    intro store j hj
    by_cases hf : ff e
    · rw [runEntries_cons_fail uid now ff store e rest hf] at hj ⊢
      exact ih store j hj
    · cases hm : findMsg store e.messageId with
      | some m =>
        by_cases hs : m.status = .sent
        · rw [runEntries_cons_deliver uid now ff store e rest m
            (by simpa using hf) hm hs] at hj ⊢
          have hj1 : j ≠ e.messageId := fun h => hj (by simp [h])
          have hj2 : j ∉ (runEntries uid now ff
              (updateMsg store e.messageId (fun m0 => markDelivered m0 uid now))
              rest).delivered := fun h => hj (List.mem_cons_of_mem _ h)
          rw [ih _ j hj2]
          exact findMsg_updateMsg_ne store e.messageId j _
            (fun m0 => markDelivered_id m0 uid now) hj1
        · rw [runEntries_cons_notsent uid now ff store e rest m
            (by simpa using hf) hm hs] at hj ⊢
          exact ih store j hj
      | none =>
        rw [runEntries_cons_absent uid now ff store e rest
          (by simpa using hf) hm] at hj ⊢
        exact ih store j hj

theorem runEntries_delivered_sent (uid now : Nat) (ff : QEntry → Bool) :
    ∀ (es : List QEntry) (store : List Message),
      ∀ i ∈ (runEntries uid now ff store es).delivered,
        ∃ m, findMsg store i = some m ∧ m.status = .sent := by
  intro es
  induction es with
  | nil => intro store i hi; simp [runEntries_nil] at hi
  | cons e rest ih =>
    intro store i hi
    by_cases hf : ff e
    · rw [runEntries_cons_fail uid now ff store e rest hf] at hi
      exact ih store i hi
    · cases hm : findMsg store e.messageId with
      | some m =>
        by_cases hs : m.status = .sent
        · rw [runEntries_cons_deliver uid now ff store e rest m
            (by simpa using hf) hm hs] at hi
          rcases List.mem_cons.mp hi with h | h
          · exact ⟨m, h ▸ hm, hs⟩
          · obtain ⟨m', hm', hs'⟩ := ih _ i h
            by_cases hie : i = e.messageId
            · exact ⟨m, hie ▸ hm, hs⟩
            · rw [findMsg_updateMsg_ne store e.messageId i _
                (fun m0 => markDelivered_id m0 uid now) hie] at hm'
              exact ⟨m', hm', hs'⟩
        · rw [runEntries_cons_notsent uid now ff store e rest m
            (by simpa using hf) hm hs] at hi
          exact ih store i hi
      | none =>
        rw [runEntries_cons_absent uid now ff store e rest
          (by simpa using hf) hm] at hi
        exact ih store i hi

theorem runEntries_skips_notsent (uid now : Nat) (ff : QEntry → Bool) :
    ∀ (es : List QEntry) (store : List Message) (i : Nat),
      (findMsg store i = none
        ∨ ∃ m, findMsg store i = some m ∧ m.status ≠ .sent) →
      i ∉ (runEntries uid now ff store es).delivered
      ∧ findMsg (runEntries uid now ff store es).store i = findMsg store i := by
  intro es
  induction es with
  | nil => intro store i _; exact ⟨by simp [runEntries_nil], rfl⟩
  | cons e rest ih =>
    intro store i hns
    by_cases hf : ff e
    · rw [runEntries_cons_fail uid now ff store e rest hf]
      exact ih store i hns
    · cases hm : findMsg store e.messageId with
      | some m =>
        by_cases hs : m.status = .sent
        · rw [runEntries_cons_deliver uid now ff store e rest m
            (by simpa using hf) hm hs]
          have hie : i ≠ e.messageId := by
            intro h
            rcases hns with h0 | ⟨m', hm', hs'⟩
            · rw [h, hm] at h0; exact Option.noConfusion h0
            · rw [h, hm] at hm'
              exact hs' ((Option.some.injEq _ _).mp hm' ▸ hs)
          have hstep : findMsg
              (updateMsg store e.messageId (fun m0 => markDelivered m0 uid now)) i
              = findMsg store i :=
            findMsg_updateMsg_ne store e.messageId i _
              (fun m0 => markDelivered_id m0 uid now) hie
          have hns' : findMsg
              (updateMsg store e.messageId (fun m0 => markDelivered m0 uid now)) i
                = none
              ∨ ∃ m', findMsg
                  (updateMsg store e.messageId
                    (fun m0 => markDelivered m0 uid now)) i = some m'
                  ∧ m'.status ≠ .sent := by
            rw [hstep]; exact hns
          obtain ⟨h1, h2⟩ := ih _ i hns'
          refine ⟨?_, by rw [h2, hstep]⟩
          intro h
          rcases List.mem_cons.mp h with h | h
          · exact hie h
          · exact h1 h
        · rw [runEntries_cons_notsent uid now ff store e rest m
            (by simpa using hf) hm hs]
          exact ih store i hns
      | none =>
        rw [runEntries_cons_absent uid now ff store e rest
          (by simpa using hf) hm]
        exact ih store i hns

theorem runEntries_delivers (uid now : Nat) (ff : QEntry → Bool) :
    ∀ (es : List QEntry) (store : List Message) (e : QEntry) (m : Message),
      (es.map QEntry.messageId).Nodup → e ∈ es → ff e = false →
      findMsg store e.messageId = some m → m.status = .sent →
      e.messageId ∈ (runEntries uid now ff store es).delivered
      ∧ findMsg (runEntries uid now ff store es).store e.messageId
          = some (markDelivered m uid now) := by
  intro es
  induction es with
  | nil => intro store e m _ he; exact absurd he (List.not_mem_nil e)
  | cons e0 rest ih =>
    intro store e m hnd he hf hm hs
    have hnd' : (∀ x ∈ rest, ¬x.messageId = e0.messageId)
        ∧ (rest.map QEntry.messageId).Nodup := by
      simpa using hnd
    have hnd0 : e0.messageId ∉ rest.map QEntry.messageId := by
      intro h
      obtain ⟨x, hx, hxe⟩ := List.mem_map.mp h
      exact hnd'.1 x hx hxe
    have hndr : (rest.map QEntry.messageId).Nodup := hnd'.2
    rcases List.mem_cons.mp he with rfl | hrest
    · -- e is the head entry: it is delivered right here
      rw [runEntries_cons_deliver uid now ff store e rest m hf hm hs]
      have hstep : findMsg
          (updateMsg store e.messageId (fun m0 => markDelivered m0 uid now))
          e.messageId = some (markDelivered m uid now) := by
        rw [findMsg_updateMsg_eq store e.messageId _
          (fun m0 => markDelivered_id m0 uid now), hm]
        rfl
      have hnotin : e.messageId ∉ (runEntries uid now ff
          (updateMsg store e.messageId (fun m0 => markDelivered m0 uid now))
          rest).delivered := by
        intro h
        obtain ⟨e', he', h1, _⟩ := runEntries_delivered_src uid now ff rest _
          e.messageId h
        exact hnd0 (h1 ▸ List.mem_map_of_mem QEntry.messageId he')
      refine ⟨List.mem_cons_self _ _, ?_⟩
      rw [runEntries_store_untouched uid now ff rest _ e.messageId hnotin]
      exact hstep
    · -- e sits in the tail
      have hne : e.messageId ≠ e0.messageId := by
        intro h
        exact hnd0 (h ▸ List.mem_map_of_mem QEntry.messageId hrest)
      by_cases hf0 : ff e0
      · rw [runEntries_cons_fail uid now ff store e0 rest hf0]
        exact ih store e m hndr hrest hf hm hs
      · cases hm0 : findMsg store e0.messageId with
        | some m0 =>
          by_cases hs0 : m0.status = .sent
          · rw [runEntries_cons_deliver uid now ff store e0 rest m0
              (by simpa using hf0) hm0 hs0]
            have hm1 : findMsg
                (updateMsg store e0.messageId (fun m0 => markDelivered m0 uid now))
                e.messageId = some m := by
              rw [findMsg_updateMsg_ne store e0.messageId e.messageId _
                (fun m0 => markDelivered_id m0 uid now) hne]
              exact hm
            obtain ⟨h1, h2⟩ := ih _ e m hndr hrest hf hm1 hs
            exact ⟨List.mem_cons_of_mem _ h1, h2⟩
          · rw [runEntries_cons_notsent uid now ff store e0 rest m0
              (by simpa using hf0) hm0 hs0]
            exact ih store e m hndr hrest hf hm hs
        | none =>
          rw [runEntries_cons_absent uid now ff store e0 rest
            (by simpa using hf0) hm0]
          exact ih store e m hndr hrest hf hm hs

theorem processQueue_online_single (online : Nat → Bool)
    (ff : QEntry → Bool) (now : Nat) (store : List Message) (uid : Nat)
    (es : List QEntry) (ho : online uid = true) (hne : es ≠ []) :
    processQueue online ff now store [(uid, es)]
      = ((sweepUser store uid now ff es).store,
         (sweepUser store uid now ff es).events,
         if (sweepUser store uid now ff es).entries = [] then []
         else [(uid, (sweepUser store uid now ff es).entries)]) := by
  simp [processQueue, ho, hne]

/-- **C6.** In a sweep for a reachable recipient (the body `processQueue`
runs when `isUserOnline(userId)` holds), under the queue invariants that
every entry's retry counter is below the ceiling and queued message ids are
distinct: (1) an entry whose refetched message is still `sent` (and whose
attempt does not throw) is pushed, marked delivered in the store, and
removed from the remaining queue; (2) only entries whose refetched message
was `sent` are ever pushed; (3) no entry at or above the retry ceiling of
`maxRetries = 10` survives in the queue; (4) an entry that reaches the
ceiling through a failed attempt leaves its underlying message record in
the durable store unchanged. -/
theorem sweepUser_delivers_sent_and_drops_ceiling
    (store : List Message) (uid now : Nat) (ff : QEntry → Bool)
    (es : List QEntry)
    (hb : ∀ e ∈ es, e.retries < maxRetries)
    (hnd : (es.map QEntry.messageId).Nodup) :
    (∀ e ∈ es, ff e = false →
      ∀ m, findMsg store e.messageId = some m → m.status = .sent →
        NetEvent.userNewMessage uid e.messageId
            ∈ (sweepUser store uid now ff es).events
        ∧ findMsg (sweepUser store uid now ff es).store e.messageId
            = some (markDelivered m uid now)
        ∧ ∀ e' ∈ (sweepUser store uid now ff es).entries,
            e'.messageId ≠ e.messageId)
    ∧ (∀ i, NetEvent.userNewMessage uid i
          ∈ (sweepUser store uid now ff es).events →
        ∃ m, findMsg store i = some m ∧ m.status = .sent)
    ∧ (∀ e' ∈ (sweepUser store uid now ff es).entries,
        e'.retries < maxRetries)
    ∧ (∀ e ∈ es, ff e = true → maxRetries ≤ e.retries + 1 →
        findMsg (sweepUser store uid now ff es).store e.messageId
          = findMsg store e.messageId) := by
  refine ⟨?_, ?_, ?_, ?_⟩
  · intro e he hf m hm hs
    obtain ⟨hdel, hst⟩ :=
      runEntries_delivers uid now ff es store e m hnd he hf hm hs
    refine ⟨?_, hst, ?_⟩
    · show NetEvent.userNewMessage uid e.messageId
        ∈ (runEntries uid now ff store es).events
      rw [runEntries_events_eq]
      exact List.mem_map_of_mem _ hdel
    · intro e' he' heq
      have hp := List.mem_filter.mp he'
      have : ¬ e'.messageId ∈ (runEntries uid now ff store es).delivered := by
        have h2 := hp.2
        simp only [Bool.and_eq_true, Bool.not_eq_true', decide_eq_true_eq] at h2
        intro hmem
        have h3 := h2.1
        simp at h3
        exact h3 hmem
      exact this (heq ▸ hdel)
  · intro i hi
    have : i ∈ (runEntries uid now ff store es).delivered := by
      have hev : NetEvent.userNewMessage uid i
          ∈ (runEntries uid now ff store es).events := hi
      rw [runEntries_events_eq] at hev
      obtain ⟨j, hj, hj2⟩ := List.mem_map.mp hev
      cases hj2
      exact hj
    exact runEntries_delivered_sent uid now ff es store i this
  · intro e' he'
    have hp := List.mem_filter.mp he'
    have h2 := hp.2
    simp only [Bool.and_eq_true, decide_eq_true_eq] at h2
    exact h2.2
  · intro e he hf _
    have hnotdel : e.messageId ∉ (runEntries uid now ff store es).delivered := by
      intro hmem
      obtain ⟨e'', he'', h1, h2⟩ :=
        runEntries_delivered_src uid now ff es store e.messageId hmem
      have : e'' = e :=
        List.inj_on_of_nodup_map hnd he'' he h1
      rw [this] at h2
      rw [hf] at h2
      exact Bool.noConfusion h2
    exact runEntries_store_untouched uid now ff es store e.messageId hnotdel

/-- Closed witness for C6: one queued entry whose message is still `sent`
is pushed during the sweep. -/
theorem sweepUser_delivers_sent_and_drops_ceiling_spot :
    NetEvent.userNewMessage 7 10
      ∈ (sweepUser
          [{ id := 10, conversationId := 2, sender := 3, recipient := some 7
             content := ⟨"c", "i", "aes-256-gcm", some "t"⟩, type := "text"
             replyTo := none, status := .sent, deliveredTo := [], readBy := []
             sentAt := 4, deleted := false, deletedFor := []
             expiresAt := none }]
          7 99 (fun _ => false)
          [{ messageId := 10, conversationId := 2, sender := 3, sentAt := 4
             retries := 0, queuedAt := 5 }]).events := by
  have h := sweepUser_delivers_sent_and_drops_ceiling
    [{ id := 10, conversationId := 2, sender := 3, recipient := some 7
       content := ⟨"c", "i", "aes-256-gcm", some "t"⟩, type := "text"
       replyTo := none, status := .sent, deliveredTo := [], readBy := []
       sentAt := 4, deleted := false, deletedFor := [], expiresAt := none }]
    7 99 (fun _ => false)
    [{ messageId := 10, conversationId := 2, sender := 3, sentAt := 4
       retries := 0, queuedAt := 5 }]
    (by decide) (by decide)
  exact (h.1
    { messageId := 10, conversationId := 2, sender := 3, sentAt := 4
      retries := 0, queuedAt := 5 }
    (by decide) rfl
    { id := 10, conversationId := 2, sender := 3, recipient := some 7
      content := ⟨"c", "i", "aes-256-gcm", some "t"⟩, type := "text"
      replyTo := none, status := .sent, deliveredTo := [], readBy := []
      sentAt := 4, deleted := false, deletedFor := [], expiresAt := none }
    (by decide) rfl).1

/-- **C10.** During a sweep for an online recipient, a queued entry whose
stored message is absent or is no longer `sent` (and whose refetch does
not throw) is neither pushed, nor dropped, nor retry-incremented: the very
same entry survives in the remaining queue, its message record in the
store is untouched, and across the whole sweep retry counters increase
exactly on the entries whose delivery attempt threw. -/
theorem sweepUser_leaves_nonsent_entry
    (store : List Message) (uid now : Nat) (ff : QEntry → Bool)
    (es : List QEntry) (e : QEntry)
    (he : e ∈ es) (hf : ff e = false) (hb : e.retries < maxRetries)
    (hns : findMsg store e.messageId = none
      ∨ ∃ m, findMsg store e.messageId = some m ∧ m.status ≠ .sent) :
    e ∈ (sweepUser store uid now ff es).entries
    ∧ NetEvent.userNewMessage uid e.messageId
        ∉ (sweepUser store uid now ff es).events
    ∧ findMsg (sweepUser store uid now ff es).store e.messageId
        = findMsg store e.messageId
    ∧ (runEntries uid now ff store es).entries
        = es.map (fun e0 =>
            if ff e0 then { e0 with retries := e0.retries + 1 } else e0) := by
  obtain ⟨hnotdel, hstore⟩ := runEntries_skips_notsent uid now ff es store
    e.messageId hns
  have hent : e ∈ (runEntries uid now ff store es).entries := by
    rw [runEntries_entries_eq]
    have : (if ff e then { e with retries := e.retries + 1 } else e) = e := by
      rw [hf]
      simp
    exact this ▸ List.mem_map_of_mem _ he
  refine ⟨?_, ?_, hstore, runEntries_entries_eq uid now ff es store⟩
  · apply List.mem_filter.mpr
    refine ⟨hent, ?_⟩
    simp only [Bool.and_eq_true, Bool.not_eq_true', decide_eq_true_eq]
    constructor
    · simpa using hnotdel
    · exact hb
  · intro hev
    have hev' : NetEvent.userNewMessage uid e.messageId
        ∈ (runEntries uid now ff store es).events := hev
    rw [runEntries_events_eq] at hev'
    obtain ⟨j, hj, hj2⟩ := List.mem_map.mp hev'
    cases hj2
    exact hnotdel hj

/-- Closed witness for C10: an entry whose message is already `delivered`
survives the sweep untouched. -/
theorem sweepUser_leaves_nonsent_entry_spot :
    ({ messageId := 10, conversationId := 2, sender := 3, sentAt := 4
       retries := 0, queuedAt := 5 } : QEntry)
      ∈ (sweepUser
          [{ id := 10, conversationId := 2, sender := 3, recipient := some 7
             content := ⟨"c", "i", "aes-256-gcm", some "t"⟩, type := "text"
             replyTo := none, status := .delivered, deliveredTo := [⟨7, 6⟩]
             readBy := [], sentAt := 4, deleted := false, deletedFor := []
             expiresAt := none }]
          7 99 (fun _ => false)
          [{ messageId := 10, conversationId := 2, sender := 3, sentAt := 4
             retries := 0, queuedAt := 5 }]).entries := by
  have h := sweepUser_leaves_nonsent_entry
    [{ id := 10, conversationId := 2, sender := 3, recipient := some 7
       content := ⟨"c", "i", "aes-256-gcm", some "t"⟩, type := "text"
       replyTo := none, status := .delivered, deliveredTo := [⟨7, 6⟩]
       readBy := [], sentAt := 4, deleted := false, deletedFor := []
       expiresAt := none }]
    7 99 (fun _ => false)
    [{ messageId := 10, conversationId := 2, sender := 3, sentAt := 4
       retries := 0, queuedAt := 5 }]
    { messageId := 10, conversationId := 2, sender := 3, sentAt := 4
      retries := 0, queuedAt := 5 }
    (by decide) rfl (by decide)
    (Or.inr ⟨_, rfl, by decide⟩)
  exact h.1

/-! ## Reconnect bulk delivery (src/backend/workers/messageQueue.js) -/

/-- `[...new Set(xs)]`: first-occurrence de-duplication used for the
distinct sender list (src/backend/workers/messageQueue.js line 186). -/
def jsDedup : List Nat → List Nat
  | [] => []
  | a :: l => a :: jsDedup (l.filter (fun b => b ≠ a))
termination_by l => l.length
decreasing_by
  simp only [List.length_cons]
  exact Nat.lt_succ_of_le (List.length_filter_le _ _)

theorem mem_jsDedup (a : Nat) : ∀ l : List Nat, a ∈ jsDedup l ↔ a ∈ l := by
  intro l
  induction l using jsDedup.induct with
  | case1 => simp [jsDedup]
  | case2 b rest ih =>
    rw [jsDedup]
    by_cases hab : a = b
    · simp [hab]
    · simp only [List.mem_cons, ih, List.mem_filter]
      constructor
      · rintro (h | ⟨h, _⟩)
        · exact Or.inl h
        · exact Or.inr h
      · rintro (h | h)
        · exact Or.inl h
        · exact Or.inr ⟨h, by simpa using hab⟩

theorem nodup_jsDedup : ∀ l : List Nat, (jsDedup l).Nodup := by
  intro l
  induction l using jsDedup.induct with
  | case1 => simp [jsDedup]
  | case2 b rest ih =>
    rw [jsDedup]
    refine List.nodup_cons.mpr ⟨?_, ih⟩
    rw [mem_jsDedup]
    simp

theorem countP_eq_one_of_nodup_mem (s : Nat) :
    ∀ l : List Nat, l.Nodup → s ∈ l →
      l.countP (fun s0 => decide (s0 = s)) = 1 := by
  intro l
  induction l with
  | nil => intro _ h; exact absurd h (List.not_mem_nil s)
  | cons a rest ih =>
    intro hn hm
    obtain ⟨hna, hnr⟩ := List.nodup_cons.mp hn
    by_cases has : a = s
    · rw [List.countP_cons_of_pos _ _ (by simpa using has)]
      have hzero : rest.countP (fun s0 => decide (s0 = s)) = 0 := by
        rw [List.countP_eq_zero]
        intro b hb
        simp only [decide_eq_true_eq]
        intro hbs
        exact hna ((hbs.trans has.symm) ▸ hb)
      rw [hzero]
    · rw [List.countP_cons_of_neg _ _ (by simpa using has)]
      rcases List.mem_cons.mp hm with h | h
      · exact absurd h.symm has
      · exact ih hnr h

/-- The query of `MessageQueue.getPendingMessages`
(src/backend/workers/messageQueue.js lines 137-145):
`{ recipient: userId, status: 'sent', deleted: false }`. -/
def pendingFilter (uid : Nat) (m : Message) : Bool :=
  decide (m.recipient = some uid) && decide (m.status = .sent) && !m.deleted

/-- `MessageQueue.getPendingMessages(userId)`
(src/backend/workers/messageQueue.js lines 135-152): the matching
messages sorted by `sentAt` ascending, capped by `limit(100)`. -/
def getPendingMessages (store : List Message) (uid : Nat) : List Message :=
  ((store.filter (pendingFilter uid)).mergeSort
    (fun a b => decide (a.sentAt ≤ b.sentAt))).take 100

/-- Detects the single `messages:pending` batch event. -/
def isPendingBatch : NetEvent → Bool
  | .pendingBatch _ _ => true
  | _ => false

/-- Detects a `messages:delivered` notification addressed to sender `s`. -/
def isNoteFor (s : Nat) : NetEvent → Bool
  | .deliveredNote s' _ _ => decide (s' = s)
  | _ => false

/-- `MessageQueue.deliverPendingMessages(userId)`
(src/backend/workers/messageQueue.js lines 157-202): fetch the pending
page; if empty, return silently; else push one `messages:pending` batch,
bulk-update all fetched messages to `delivered` (pushing a delivery
receipt), and emit one `messages:delivered` note per distinct sender with
that sender's message ids. -/
def deliverPendingMessages (store : List Message) (uid now : Nat) :
    List Message × List NetEvent :=
  let pending := getPendingMessages store uid
  if pending.isEmpty then (store, [])
  else
    let ids := pending.map Message.id
    let store' := updateWhere store (fun m => ids.contains m.id)
      (fun m => { m with status := .delivered
                         deliveredTo := m.deliveredTo ++ [⟨uid, now⟩] })
    let senders := jsDedup (pending.map Message.sender)
    (store',
      NetEvent.pendingBatch uid ids
        :: senders.map (fun s => NetEvent.deliveredNote s uid
            ((pending.filter (fun m => decide (m.sender = s))).map Message.id)))

/-- **C7.** On a user's reconnect, `deliverPendingMessages`: (i) fetches
all of the user's `sent`-status, non-deleted messages whenever they fit
the 100-message page; (ii) pushes them in exactly one `messages:pending`
batch event carrying all fetched ids; (iii) marks every fetched message
delivered in bulk (status `delivered` plus a delivery receipt for the
user); (iv) emits exactly one delivered notification to each distinct
sender among the fetched messages. -/
theorem deliverPendingMessages_correct
    (store : List Message) (uid now : Nat)
    (hcount : (store.filter (pendingFilter uid)).length ≤ 100) :
    (∀ m, m ∈ getPendingMessages store uid
        ↔ m ∈ store.filter (pendingFilter uid))
    ∧ (getPendingMessages store uid ≠ [] →
        (deliverPendingMessages store uid now).2.filter isPendingBatch
          = [NetEvent.pendingBatch uid
              ((getPendingMessages store uid).map Message.id)])
    ∧ (∀ i ∈ (getPendingMessages store uid).map Message.id,
        findMsg (deliverPendingMessages store uid now).1 i
          = (findMsg store i).map (fun m =>
              { m with status := .delivered
                       deliveredTo := m.deliveredTo ++ [⟨uid, now⟩] }))
    ∧ (∀ s ∈ (getPendingMessages store uid).map Message.sender,
        (deliverPendingMessages store uid now).2.countP (isNoteFor s) = 1) := by
  refine ⟨?_, ?_, ?_, ?_⟩
  · intro m
    unfold getPendingMessages
    rw [List.take_of_length_le (by rw [List.length_mergeSort]; exact hcount)]
    exact List.mem_mergeSort
  · intro hne
    have hie : (getPendingMessages store uid).isEmpty = false := by
      simpa [List.isEmpty_iff] using hne
    unfold deliverPendingMessages
    simp only [hie, Bool.false_eq_true, if_false]
    rw [List.filter_cons_of_pos (by rfl)]
    have hnotes : ((jsDedup ((getPendingMessages store uid).map
          Message.sender)).map (fun s => NetEvent.deliveredNote s uid
            (((getPendingMessages store uid).filter
              (fun m => decide (m.sender = s))).map Message.id))).filter
          isPendingBatch = [] := by
      rw [List.filter_eq_nil_iff]
      intro ev hev
      obtain ⟨s, _, hs⟩ := List.mem_map.mp hev
      rw [← hs]
      simp [isPendingBatch]
    rw [hnotes]
  · intro i hi
    have hne : getPendingMessages store uid ≠ [] := by
      intro h
      rw [h] at hi
      simp at hi
    have hie : (getPendingMessages store uid).isEmpty = false := by
      simpa [List.isEmpty_iff] using hne
    unfold deliverPendingMessages
    simp only [hie, Bool.false_eq_true, if_false]
    rw [findMsg_updateWhere store
      (fun m => ((getPendingMessages store uid).map Message.id).contains m.id)
      (fun m => { m with status := .delivered
                         deliveredTo := m.deliveredTo ++ [⟨uid, now⟩] })
      (fun m => rfl) i]
    cases hm : findMsg store i with
    | none => rfl
    | some m =>
      have hmi := findMsg_id store i m hm
      have hcont : ((getPendingMessages store uid).map
          Message.id).contains m.id = true := by
        rw [hmi]
        simpa using hi
      simp [hcont]
      intro hall
      exfalso
      obtain ⟨x, hx, hxid⟩ := List.mem_map.mp hi
      exact hall x hx (hxid.trans hmi.symm)
  · intro s hs
    have hne : getPendingMessages store uid ≠ [] := by
      intro h
      rw [h] at hs
      simp at hs
    have hie : (getPendingMessages store uid).isEmpty = false := by
      simpa [List.isEmpty_iff] using hne
    unfold deliverPendingMessages
    simp only [hie, Bool.false_eq_true, if_false]
    rw [List.countP_cons_of_neg _ _ (by simp [isNoteFor])]
    rw [List.countP_map]
    have hcomp : (isNoteFor s ∘ fun s0 => NetEvent.deliveredNote s0 uid
        (((getPendingMessages store uid).filter
          (fun m => decide (m.sender = s0))).map Message.id))
        = fun s0 => decide (s0 = s) := by
      funext s0
      simp [isNoteFor, Function.comp]
    rw [hcomp]
    exact countP_eq_one_of_nodup_mem s _ (nodup_jsDedup _)
      ((mem_jsDedup s _).mpr hs)

/-- Closed witness for C7 at a one-message store. -/
theorem deliverPendingMessages_correct_spot :
    (deliverPendingMessages
      [{ id := 10, conversationId := 2, sender := 3, recipient := some 7
         content := ⟨"c", "i", "aes-256-gcm", some "t"⟩, type := "text"
         replyTo := none, status := .sent, deliveredTo := [], readBy := []
         sentAt := 4, deleted := false, deletedFor := []
         expiresAt := none }] 7 99).2.countP (isNoteFor 3) = 1 := by
  have h := deliverPendingMessages_correct
    [{ id := 10, conversationId := 2, sender := 3, recipient := some 7
       content := ⟨"c", "i", "aes-256-gcm", some "t"⟩, type := "text"
       replyTo := none, status := .sent, deliveredTo := [], readBy := []
       sentAt := 4, deleted := false, deletedFor := []
       expiresAt := none }] 7 99 (by decide)
  have hp : getPendingMessages
      [{ id := 10, conversationId := 2, sender := 3, recipient := some 7
         content := ⟨"c", "i", "aes-256-gcm", some "t"⟩, type := "text"
         replyTo := none, status := .sent, deliveredTo := [], readBy := []
         sentAt := 4, deleted := false, deletedFor := []
         expiresAt := none }] 7
      = [{ id := 10, conversationId := 2, sender := 3, recipient := some 7
           content := ⟨"c", "i", "aes-256-gcm", some "t"⟩, type := "text"
           replyTo := none, status := .sent, deliveredTo := [], readBy := []
           sentAt := 4, deleted := false, deletedFor := []
           expiresAt := none }] := by
    unfold getPendingMessages
    rw [show List.filter (pendingFilter 7)
        [{ id := 10, conversationId := 2, sender := 3, recipient := some 7
           content := ⟨"c", "i", "aes-256-gcm", some "t"⟩, type := "text"
           replyTo := none, status := .sent, deliveredTo := [], readBy := []
           sentAt := 4, deleted := false, deletedFor := []
           expiresAt := none }]
        = [{ id := 10, conversationId := 2, sender := 3, recipient := some 7
             content := ⟨"c", "i", "aes-256-gcm", some "t"⟩, type := "text"
             replyTo := none, status := .sent, deliveredTo := [], readBy := []
             sentAt := 4, deleted := false, deletedFor := []
             expiresAt := none }] from by decide]
    rw [List.mergeSort_singleton]
    rfl
  apply h.2.2.2 3
  rw [hp]
  decide

/-! ## Client message handling
(src/frontend/src/context/MessagingContext.jsx) -/

/-- Update a plain-object map under key `k` with `f`, starting missing
keys from `d` (models `prev[key] = ...(prev[key] || []) ...` updates). -/
def assocUpd {β : Type} (l : List (Nat × β)) (k : Nat) (f : β → β) (d : β) :
    List (Nat × β) :=
  if l.any (fun p => p.1 = k) then
    l.map (fun p => if p.1 = k then (p.1, f p.2) else p)
  else
    l ++ [(k, f d)]

/-- Read a plain-object map at key `k`, defaulting to `d`
(models `prev[key] || default`). -/
def assocGetD {β : Type} (l : List (Nat × β)) (k : Nat) (d : β) : β :=
  match l.find? (fun p => p.1 = k) with
  | some p => p.2
  | none => d

theorem find?_key_map {β : Type} (k : Nat) (f : β → β) :
    ∀ l : List (Nat × β),
      List.find? (fun p => p.1 = k)
          (l.map (fun p => if p.1 = k then (p.1, f p.2) else p))
        = Option.map (fun p => (p.1, f p.2))
            (List.find? (fun p => p.1 = k) l) := by
  intro l
  induction l with
  | nil => rfl
  | cons p rest ih =>
    by_cases hp : p.1 = k
    · rw [List.map_cons, if_pos hp, List.find?_cons_of_pos _ (by simpa using hp),
        List.find?_cons_of_pos _ (by simpa using hp)]
      rfl
    · rw [List.map_cons, if_neg hp, List.find?_cons_of_neg _ (by simpa using hp),
        List.find?_cons_of_neg _ (by simpa using hp)]
      exact ih

theorem assocGetD_assocUpd {β : Type} (l : List (Nat × β)) (k : Nat)
    (f : β → β) (d : β) :
    assocGetD (assocUpd l k f d) k d = f (assocGetD l k d) := by
  unfold assocUpd
  by_cases hany : l.any (fun p => p.1 = k)
  · rw [if_pos hany]
    unfold assocGetD
    rw [find?_key_map]
    have hsome : (l.find? (fun p => p.1 = k)).isSome := by
      rw [List.find?_isSome]
      obtain ⟨x, hx, hpx⟩ := List.any_eq_true.mp hany
      exact ⟨x, hx, hpx⟩
    cases hfind : l.find? (fun p => p.1 = k) with
    | none => rw [hfind] at hsome; simp at hsome
    | some p => simp
  · rw [if_neg hany]
    have hnone : l.find? (fun p => p.1 = k) = none := by
      rw [List.find?_eq_none]
      intro x hx hpx
      exact hany (List.any_eq_true.mpr ⟨x, hx, hpx⟩)
    unfold assocGetD
    rw [List.find?_append, hnone]
    simp

/-- Wire form of a `message:new` payload as consumed by the client. -/
structure WireMessage where
  id : Nat
  conversationId : Nat
  sender : Nat
  content : EncryptionService.EncryptedPayload
  sentAt : Nat
  deriving Repr, DecidableEq

/-- A message in the client's in-memory view (`processedMessage`):
`decryptedContent` stays `null` when no key is cached or decryption
threw. -/
structure ClientMsg where
  id : Nat
  conversationId : Nat
  sender : Nat
  content : EncryptionService.EncryptedPayload
  decryptedContent : Option (List Nat)
  receivedAt : Nat
  deriving Repr, DecidableEq

/-- Effects the client handler produces. -/
inductive ClientEvent
  | deliveredReceipt (messageId conversationId : Nat)
  | toast (senderId : Nat)
  deriving Repr, DecidableEq

/-- Client view state touched by `handleNewMessage`: per-conversation
message lists and unread counters. -/
structure ClientState where
  messages : List (Nat × List ClientMsg)
  unread : List (Nat × Nat)
  deriving Repr, DecidableEq

/-- `handleNewMessage` (src/frontend/src/context/MessagingContext.jsx
lines 132-177).  `hasKey` is `encryption.hasKey(conversationId)`;
`decOutcome` is the decryption attempt's result (`none` models the caught
throw); `socketPresent` is whether `socket` is non-null for the optional
`socket?.emit`.  The handler never rethrows: a failed decryption only
leaves `decryptedContent` null. -/
def handleNewMessage (st : ClientState) (msg : WireMessage) (hasKey : Bool)
    (decOutcome : Option (List Nat)) (activeConversation : Option Nat)
    (socketPresent : Bool) (now : Nat) : ClientState × List ClientEvent :=
  let decryptedContent := if hasKey then decOutcome else none
  let processed : ClientMsg :=
    { id := msg.id, conversationId := msg.conversationId
      sender := msg.sender, content := msg.content
      decryptedContent := decryptedContent, receivedAt := now }
  let st1 := { st with
    messages := assocUpd st.messages msg.conversationId (· ++ [processed]) [] }
  let notActive := activeConversation ≠ some msg.conversationId
  let st2 :=
    if notActive then
      { st1 with unread := assocUpd st1.unread msg.conversationId (· + 1) 0 }
    else st1
  let evs1 : List ClientEvent := if notActive then [.toast msg.sender] else []
  let evs2 : List ClientEvent :=
    if socketPresent then [.deliveredReceipt msg.id msg.conversationId] else []
  (st2, evs1 ++ evs2)

/-- **C8.** For every inbound `message:new` on the client (with the socket
handle present), the delivered receipt is emitted whether or not
decryption succeeds — the emitted events are identical to those of a
failing decryption — and on failure (no cached key, or the decrypt call
threw) the message still lands in the local view for its conversation
with `decryptedContent` null, no error escaping to the user. -/
theorem handleNewMessage_receipt_independent_of_decrypt
    (st : ClientState) (msg : WireMessage) (hasKey : Bool)
    (decOutcome : Option (List Nat)) (active : Option Nat) (now : Nat)
    (sock : Bool) (hsock : sock = true) :
    ClientEvent.deliveredReceipt msg.id msg.conversationId
        ∈ (handleNewMessage st msg hasKey decOutcome active sock now).2
    ∧ (handleNewMessage st msg hasKey decOutcome active sock now).2
        = (handleNewMessage st msg false none active sock now).2
    ∧ (hasKey = false ∨ decOutcome = none →
        { id := msg.id, conversationId := msg.conversationId
          sender := msg.sender, content := msg.content
          decryptedContent := none, receivedAt := now }
          ∈ assocGetD
              (handleNewMessage st msg hasKey decOutcome active sock now).1.messages
              msg.conversationId []) := by
  subst hsock
  refine ⟨?_, ?_, ?_⟩
  · unfold handleNewMessage
    by_cases hact : active ≠ some msg.conversationId <;> simp [hact]
  · rfl
  · intro hfail
    have hdec : (if hasKey then decOutcome else none) = none := by
      rcases hfail with h | h <;> simp [h]
    unfold handleNewMessage
    simp only [hdec]
    split <;> simp [assocGetD_assocUpd]

/-- Closed witness for C8: a failed decryption still emits the receipt. -/
theorem handleNewMessage_receipt_independent_of_decrypt_spot :
    ClientEvent.deliveredReceipt 5 2
      ∈ (handleNewMessage ⟨[], []⟩
          { id := 5, conversationId := 2, sender := 3
            content := ⟨[9], [1], none, "aes-256-gcm"⟩, sentAt := 4 }
          false none none true 7).2 :=
  (handleNewMessage_receipt_independent_of_decrypt ⟨[], []⟩
    { id := 5, conversationId := 2, sender := 3
      content := ⟨[9], [1], none, "aes-256-gcm"⟩, sentAt := 4 }
    false none none 7 true rfl).1

/-! ## Presence grace window
(src/backend/routes/messages.js, WebSocket server section) -/

/-- Presence broadcasts (`broadcastUserStatus`). -/
inductive PresenceEvent
  | userStatus (userId : Nat) (status : String)
  deriving Repr, DecidableEq

/-- Hub state: the `connectedUsers` map, the `userRooms` map, and the
pending offline-broadcast timers as `(fireAt, userId)` pairs scheduled by
`setTimeout`. -/
structure HubState where
  connectedUsers : List Nat
  userRooms : List (Nat × List Nat)
  timers : List (Nat × Nat)
  deriving Repr, DecidableEq

/-- The grace delay of the offline broadcast: `setTimeout(..., 5000)`. -/
def graceMs : Nat := 5000

/-- Presence part of the connection handler: `connectedUsers.set(userId,
...)` (replace-or-insert) and the `online` broadcast. -/
def handleConnect (uid : Nat) (st : HubState) : HubState × List PresenceEvent :=
  ({ st with
      connectedUsers := uid :: st.connectedUsers.filter (fun u => u ≠ uid) },
   [.userStatus uid "online"])

/-- `socket.on('disconnect', ...)` (src/backend/routes/messages.js lines
849-861): delete the user from `connectedUsers` and `userRooms`
immediately, emit nothing now, and schedule the offline broadcast
`graceMs` later. -/
def handleDisconnect (uid now : Nat) (st : HubState) :
    HubState × List PresenceEvent :=
  ({ st with
      connectedUsers := st.connectedUsers.filter (fun u => u ≠ uid)
      userRooms := st.userRooms.filter (fun p => p.1 ≠ uid)
      timers := st.timers ++ [(now + graceMs, uid)] },
   [])

/-- Body of the scheduled timeout: `if (!connectedUsers.has(userId))
broadcastUserStatus(userId, 'offline')` evaluated at fire time. -/
def fireOfflineTimer (uid : Nat) (st : HubState) : List PresenceEvent :=
  if st.connectedUsers.contains uid then [] else [.userStatus uid "offline"]

/-- **C9.** On disconnect the user's presence registration is removed
immediately while no status event is emitted yet; the offline broadcast is
scheduled exactly `graceMs = 5000` ms later; when the timer fires after
the user reconnected (so the presence map holds them again) no offline
broadcast is emitted; only if the user is still absent at fire time does
the offline broadcast go out. -/
theorem disconnect_grace_window (uid now : Nat) (st st' : HubState) :
    uid ∉ ((handleDisconnect uid now st).1).connectedUsers
    ∧ (handleDisconnect uid now st).2 = []
    ∧ (now + graceMs, uid) ∈ ((handleDisconnect uid now st).1).timers
    ∧ (∀ st2, fireOfflineTimer uid ((handleConnect uid st2).1) = [])
    ∧ (uid ∉ st'.connectedUsers →
        fireOfflineTimer uid st' = [.userStatus uid "offline"]) := by
  refine ⟨?_, rfl, ?_, ?_, ?_⟩
  · unfold handleDisconnect
    simp
  · unfold handleDisconnect
    simp
  · intro st2
    unfold handleConnect fireOfflineTimer
    simp
  · intro h
    unfold fireOfflineTimer
    rw [if_neg]
    simpa using h

/-- Closed witness for C9 at a concrete hub state. -/
theorem disconnect_grace_window_spot :
    fireOfflineTimer 1 (⟨[], [], []⟩ : HubState)
      = [.userStatus 1 "offline"] :=
  (disconnect_grace_window 1 0 ⟨[1], [], []⟩ ⟨[], [], []⟩).2.2.2.2
    (by decide)
